import Mathlib

/-!
Verification of the NumPyTorch neural-network building-block library
(`src/nn/modules.py`) against its natural-language specification.

Tensors are shallowly embedded as functions out of `Fin`-indexed types.
Exact arithmetic (`ℚ`, and `ℝ` where the source uses the exponential
function) stands in for NumPy floating point; floating-point rounding and
overflow behaviour is outside the scope of this embedding.
-/

namespace NumPyTorch

/-! ## Softmax (`SoftmaxLayer`, src/nn/modules.py lines 116-143)

`SoftmaxLayer.forward` receives a tensor of shape `(batch, num_features, 1)`;
the trailing singleton axis is dropped in the embedding.  The source computes
`exps = np.exp(inp)` and divides by `np.sum(exps, axis=1, keepdims=True)`:
there is no explicit subtraction of the per-sample maximum in
`SoftmaxLayer.forward` (the max-shift appears only in `CrossEntropyLoss`).
-/

variable {B F : ℕ}

/-- `SoftmaxLayer.forward`: `exps = np.exp(inp)`;
`exps / np.sum(exps, axis=1, keepdims=True)`. -/
noncomputable def softmaxForward (inp : Fin B → Fin F → ℝ) : Fin B → Fin F → ℝ :=
  fun b f => Real.exp (inp b f) / ∑ f' : Fin F, Real.exp (inp b f')

/-- The per-sample maximum logit (`np.max` along the feature axis). -/
noncomputable def sampleMax (hF : 0 < F) (inp : Fin B → Fin F → ℝ) (b : Fin B) : ℝ :=
  Finset.univ.sup' ⟨⟨0, hF⟩, Finset.mem_univ _⟩ (inp b)

/-! ## LeakyReLU (`LeakyReLULayer`, lines 171-183)

The backward pass mutates the cached input **in place**:
```
self.prev_inp[self.prev_inp < 0] = self.leak
self.prev_inp[self.prev_inp >= 0] = 1
return grad * self.prev_inp
```
The second masked assignment re-evaluates `>= 0` on the buffer already
mutated by the first; the two statements are elementwise, so they are
embedded as per-element sequential updates. -/

/-- `LeakyReLULayer.forward`: `np.maximum(self.leak * inp, inp)`. -/
def leakyReluForward (leak : ℚ) (inp : Fin B → ℚ) : Fin B → ℚ :=
  fun i => max (leak * inp i) (inp i)

/-- `LeakyReLULayer.backward`: the two in-place masked assignments followed by
`grad * self.prev_inp`. -/
def leakyReluBackward (leak : ℚ) (prevInp grad : Fin B → ℚ) : Fin B → ℚ :=
  let m1 : Fin B → ℚ := fun i => if prevInp i < 0 then leak else prevInp i
  let m2 : Fin B → ℚ := fun i => if 0 ≤ m1 i then 1 else m1 i
  fun i => grad i * m2 i

/-! ## Dropout (`DropoutLayer`, lines 294-310)

`forward` in train mode samples `self.filter = np.random.binomial(1, 1-p, shape)`
and returns `inp * self.filter` — with **no** `1/(1-p)` rescaling; eval mode
returns `inp` unchanged.  The sampled Bernoulli mask is passed explicitly to
the embedding. `backward` returns `grad * self.filter` when the last forward
ran in train mode, else `grad`. -/

/-- `DropoutLayer.forward` (the sampled mask `filter` passed explicitly). -/
def dropoutForward (filter inp : Fin B → ℚ) (train : Bool) : Fin B → ℚ :=
  if train then fun i => inp i * filter i else inp

/-- `DropoutLayer.backward` (`if_train` is the flag stored by the last forward). -/
def dropoutBackward (filter grad : Fin B → ℚ) (ifTrain : Bool) : Fin B → ℚ :=
  if ifTrain then fun i => grad i * filter i else grad

/-! ## Parameter-gradient updates in `backward` (claims about accumulation)

`Linear.backward` (lines 103-113):
```
self.weight.grad += grad.T.dot(self.prev_inp)
self.bias.grad   += np.sum(grad, axis=0)
```
`BatchNormLayer.backward` (lines 569-570):
```
self.gamma.grad = np.sum(grad * self.out_, axis=0)
self.beta.grad  = np.sum(grad, axis=0)
```
`BatchNorm2d.backward` (lines 633-634):
```
self.gamma.grad = grad_gamma      # np.sum(grad * self.out_, axis=(0, 2, 3))
self.beta.grad  = grad_beta       # np.sum(grad, axis=(0, 2, 3))
```
Each embedding takes the parameter's gradient accumulator before the call and
returns its contents after the call. -/

variable {O I C H W : ℕ}

/-- `Linear.backward`: `grad_input = grad.dot(self.weight.value)`. -/
def linearBackwardInput (weight : Fin O → Fin I → ℚ) (grad : Fin B → Fin O → ℚ) :
    Fin B → Fin I → ℚ :=
  fun b j => ∑ o : Fin O, grad b o * weight o j

/-- `Linear.backward`: `self.weight.grad += grad.T.dot(self.prev_inp)`. -/
def linearBackwardWeightGrad (weightGrad : Fin O → Fin I → ℚ)
    (prevInp : Fin B → Fin I → ℚ) (grad : Fin B → Fin O → ℚ) :
    Fin O → Fin I → ℚ :=
  fun o j => weightGrad o j + ∑ b : Fin B, grad b o * prevInp b j

/-- `Linear.backward`: `self.bias.grad += np.sum(grad, axis=0)`. -/
def linearBackwardBiasGrad (biasGrad : Fin O → ℚ) (grad : Fin B → Fin O → ℚ) :
    Fin O → ℚ :=
  fun o => biasGrad o + ∑ b : Fin B, grad b o

/-- `BatchNormLayer.backward`: `self.gamma.grad = np.sum(grad * self.out_, axis=0)`
(the previous accumulator contents `gammaGrad` are discarded by the source). -/
def batchNormBackwardGammaGrad (gammaGrad : Fin F → ℚ)
    (grad out_ : Fin B → Fin F → ℚ) : Fin F → ℚ :=
  fun f => ∑ b : Fin B, grad b f * out_ b f

/-- `BatchNormLayer.backward`: `self.beta.grad = np.sum(grad, axis=0)`
(previous accumulator contents discarded). -/
def batchNormBackwardBetaGrad (betaGrad : Fin F → ℚ)
    (grad : Fin B → Fin F → ℚ) : Fin F → ℚ :=
  fun f => ∑ b : Fin B, grad b f

/-- `BatchNorm2d.backward`: `self.gamma.grad = np.sum(grad * self.out_, axis=(0,2,3))`
(previous accumulator contents discarded). -/
def batchNorm2dBackwardGammaGrad (gammaGrad : Fin C → ℚ)
    (grad out_ : Fin B → Fin C → Fin H → Fin W → ℚ) : Fin C → ℚ :=
  fun c => ∑ b : Fin B, ∑ h : Fin H, ∑ w : Fin W, grad b c h w * out_ b c h w

/-- `BatchNorm2d.backward`: `self.beta.grad = np.sum(grad, axis=(0,2,3))`
(previous accumulator contents discarded). -/
def batchNorm2dBackwardBetaGrad (betaGrad : Fin C → ℚ)
    (grad : Fin B → Fin C → Fin H → Fin W → ℚ) : Fin C → ℚ :=
  fun c => ∑ b : Fin B, ∑ h : Fin H, ∑ w : Fin W, grad b c h w

/-! ## ConvTranspose2d output-size computation (lines 485-500)

The weight tensor has shape `(in_channels, out_channels, kh, kw)`, so
`shape[2] = kh` and `shape[3] = kw`.  The source binds
```
d_w, d_h = self.weight.value.shape[2], self.weight.value.shape[3]
```
hence `d_w = kh` and `d_h = kw`, and then computes
```
out_h = (h - 1) * stride[0] - 2 * padding[0] + d_h + output_padding[0]
out_w = (w - 1) * stride[1] - 2 * padding[1] + d_w + output_padding[1]
```
Arithmetic is over ℤ, matching Python integers. -/

/-- `d_w` in `ConvTranspose2d.forward`: `self.weight.value.shape[2]`, i.e. `kh`. -/
def convT2d_dw (kh kw : ℤ) : ℤ := kh

/-- `d_h` in `ConvTranspose2d.forward`: `self.weight.value.shape[3]`, i.e. `kw`. -/
def convT2d_dh (kh kw : ℤ) : ℤ := kw

/-- `ConvTranspose2d.forward` output height:
`(h - 1) * stride[0] - 2 * padding[0] + d_h + output_padding[0]`. -/
def convT2dOutH (h sh ph oph kh kw : ℤ) : ℤ :=
  (h - 1) * sh - 2 * ph + convT2d_dh kh kw + oph

/-- `ConvTranspose2d.forward` output width:
`(w - 1) * stride[1] - 2 * padding[1] + d_w + output_padding[1]`. -/
def convT2dOutW (w sw pw opw kh kw : ℤ) : ℤ :=
  (w - 1) * sw - 2 * pw + convT2d_dw kh kw + opw

/-! ## Unimplemented backward passes (claim C10)

`Conv2d.backward` (line 435), `ConvTranspose2d.backward` (line 503),
`MaxPool2d.backward` (line 756) and `AdaptiveAvgPool2d.backward` (line 812)
each begin with `raise NotImplementedError` (any code after the raise in
`Conv2d.backward` is unreachable).  Raising is embedded as an `Except.error`
carrying the distinct exception kind; no gradient value is ever produced. -/

/-- Python exception kinds raised by the code paths modelled here. -/
inductive PyError where
  | notImplementedError
  | valueError
  | attributeError
  | indexError
deriving DecidableEq, Repr

/-- `Conv2d.backward`: `raise NotImplementedError` before anything else runs. -/
def conv2dBackward (dout : Fin B → Fin C → Fin H → Fin W → ℚ) :
    Except PyError (Fin B → Fin C → Fin H → Fin W → ℚ) :=
  .error .notImplementedError

/-- `ConvTranspose2d.backward`: `raise NotImplementedError`. -/
def convTranspose2dBackward (dout : Fin B → Fin C → Fin H → Fin W → ℚ) :
    Except PyError (Fin B → Fin C → Fin H → Fin W → ℚ) :=
  .error .notImplementedError

/-- `MaxPool2d.backward`: `raise NotImplementedError("Backward pass is not implemented.")`. -/
def maxPool2dBackward (grad : Fin B → Fin C → Fin H → Fin W → ℚ) :
    Except PyError (Fin B → Fin C → Fin H → Fin W → ℚ) :=
  .error .notImplementedError

/-- `AdaptiveAvgPool2d.backward`: `raise NotImplementedError`. -/
def adaptiveAvgPool2dBackward (grad : Fin B → Fin C → Fin H → Fin W → ℚ) :
    Except PyError (Fin B → Fin C → Fin H → Fin W → ℚ) :=
  .error .notImplementedError

/-! ## Patch-transform kernel: `get_im2col_indices` / `im2col_indices` /
`col2im_indices` (lines 313-379)

The index arrays built by `get_im2col_indices` are embedded as index
functions: for a row index `r < C*fh*fw` and an output-location index
`q < out_height*out_width`,
`k[r] = r / (fh*fw)`, `i[r][q] = (r % (fh*fw)) / fw + sh * (q / out_width)`,
`j[r][q] = r % fw + sw * (q % out_width)` (re-deriving `np.repeat`/`np.tile`
elementwise).  `im2col_indices` gathers `x_padded[:, k, i, j]` and reshapes to
`(fh*fw*C, out_h*out_w*N)` with column index `q*N + n`; `col2im_indices`
scatter-adds (`np.add.at`) back into a zero padded buffer and trims the
padding.  The final trim `x_padded[:, :, ph:-ph, pw:-pw]` is modelled as
reading the padded buffer at offset `(ph, pw)`: this is faithful when
`ph = pw = 0` (no trim) or both paddings are positive; the Python slice with
exactly one zero padding yields an empty array and is outside the model. -/

/-- Shape and window parameters of the patch-transform kernel:
batch `N`, channels `C`, spatial `H × W`, field `fh × fw`,
padding `(ph, pw)`, stride `(sh, sw)`. -/
structure ConvParams where
  N : ℕ
  C : ℕ
  H : ℕ
  W : ℕ
  fh : ℕ
  fw : ℕ
  ph : ℕ
  pw : ℕ
  sh : ℕ
  sw : ℕ
deriving DecidableEq, Repr

/-- A 4-D input tensor of shape `(N, C, H, W)`. -/
def Image (p : ConvParams) : Type :=
  Fin p.N → Fin p.C → Fin p.H → Fin p.W → ℚ

/-- `out_height = (H + 2 * pad_h - field_height) // stride_h + 1`. -/
def outHeight (p : ConvParams) : ℕ := (p.H + 2 * p.ph - p.fh) / p.sh + 1

/-- `out_width = (W + 2 * pad_w - field_width) // stride_w + 1`. -/
def outWidth (p : ConvParams) : ℕ := (p.W + 2 * p.pw - p.fw) / p.sw + 1

/-- `np.pad(x, ((0,0), (0,0), (ph,ph), (pw,pw)), mode='constant')`. -/
def xPadded (p : ConvParams) (x : Image p) (n : Fin p.N) (c : Fin p.C)
    (y : Fin (p.H + 2 * p.ph)) (w : Fin (p.W + 2 * p.pw)) : ℚ :=
  if h : p.ph ≤ y.val ∧ y.val < p.ph + p.H ∧ p.pw ≤ w.val ∧ w.val < p.pw + p.W then
    x n c ⟨y.val - p.ph, by omega⟩ ⟨w.val - p.pw, by omega⟩
  else 0

/-- The channel index array `k` of `get_im2col_indices`:
`np.repeat(np.arange(C), fh * fw)` evaluated at row `r`. -/
def kIdx (p : ConvParams) (r : ℕ) : ℕ := r / (p.fh * p.fw)

/-- The row index array `i = i0.reshape(-1,1) + i1.reshape(1,-1)` of
`get_im2col_indices` evaluated at `(r, q)`. -/
def iIdx (p : ConvParams) (r q : ℕ) : ℕ :=
  r % (p.fh * p.fw) / p.fw + p.sh * (q / outWidth p)

/-- The column index array `j = j0.reshape(-1,1) + j1.reshape(1,-1)` of
`get_im2col_indices` evaluated at `(r, q)`. -/
def jIdx (p : ConvParams) (r q : ℕ) : ℕ :=
  r % p.fw + p.sw * (q % outWidth p)

/-- `im2col_indices`: entry of the column matrix at row `r`,
column `col = q * N + n` (the result of
`x_padded[:, k, i, j].transpose(1, 2, 0).reshape(fh * fw * C, -1)`).
Out-of-range indices (never produced by in-range rows/columns) read as 0. -/
def im2col_indices (p : ConvParams) (x : Image p) (r col : ℕ) : ℚ :=
  if h : col % p.N < p.N ∧ kIdx p r < p.C ∧ iIdx p r (col / p.N) < p.H + 2 * p.ph ∧
      jIdx p r (col / p.N) < p.W + 2 * p.pw then
    xPadded p x ⟨col % p.N, h.1⟩ ⟨kIdx p r, h.2.1⟩ ⟨iIdx p r (col / p.N), h.2.2.1⟩
      ⟨jIdx p r (col / p.N), h.2.2.2⟩
  else 0

/-- The padded accumulation buffer of `col2im_indices` after
`np.add.at(x_padded, (slice(None), k, i, j), cols_reshaped)`:
each target cell receives the sum of every `(r, q)` scattering into it. -/
def col2imPadded (p : ConvParams) (cols : ℕ → ℕ → ℚ) (n : Fin p.N) (c : Fin p.C)
    (y : Fin (p.H + 2 * p.ph)) (w : Fin (p.W + 2 * p.pw)) : ℚ :=
  ∑ r ∈ Finset.range (p.C * p.fh * p.fw), ∑ q ∈ Finset.range (outHeight p * outWidth p),
    if kIdx p r = c.val ∧ iIdx p r q = y.val ∧ jIdx p r q = w.val then
      cols r (q * p.N + n.val)
    else 0

/-- `col2im_indices`: the padded accumulation buffer with the padded border
trimmed (`x_padded[:, :, ph:-ph, pw:-pw]` when padding is nonzero). -/
def col2im_indices (p : ConvParams) (cols : ℕ → ℕ → ℚ) (n : Fin p.N) (c : Fin p.C)
    (y : Fin p.H) (w : Fin p.W) : ℚ :=
  col2imPadded p cols n c ⟨y.val + p.ph, by omega⟩ ⟨w.val + p.pw, by omega⟩

/-- Number of vertical window positions covering padded row `y'`. -/
def coverH (p : ConvParams) (y' : ℕ) : ℕ :=
  ((Finset.range (outHeight p)).filter (fun oy => p.sh * oy ≤ y' ∧ y' < p.sh * oy + p.fh)).card

/-- Number of horizontal window positions covering padded column `w'`. -/
def coverW (p : ConvParams) (w' : ℕ) : ℕ :=
  ((Finset.range (outWidth p)).filter (fun ox => p.sw * ox ≤ w' ∧ w' < p.sw * ox + p.fw)).card

/-! ## Hierarchical state serialization (`Module.state_dict`,
`Module.load_state_dict`, `Sequential.state_dict`,
`Sequential.load_state_dict`, `BatchNorm2d.load_state_dict`; lines 33-61,
218-230, 638-656)

A module object is modelled as its ordered list of (attribute name, value)
bindings, where a binding is a `Parameter` (value and grad tensors, here
scalars standing for tensors), a child `Module`, or a `ModuleList`.
Dotted-path string keys are modelled as the token lists produced by
`key.split('.')`; attribute names in this codebase contain no dots, so the
split/join round trip is faithful.  `int(...)` on a key component is
modelled by a decimal-numeral parser (`none` = `ValueError`; negative-index
strings do not occur here).  `dir(self)` enumerates attributes in alphabetical order;
key order does not matter to any property proved below. -/

/-- Python `int(...)` applied to a key component, as used to index a
`ModuleList` or `Sequential.layers` (only non-negative decimal numerals occur
as indices in this codebase): `none` models the raised `ValueError`. -/
def pyInt? (s : String) : Option ℕ :=
  if s.data ≠ [] ∧ s.data.all Char.isDigit then
    some (s.data.foldl (fun n c => n * 10 + (c.toNat - '0'.toNat)) 0)
  else none

/-- An attribute binding of a module object: a `Parameter`, a child module
(its own binding list), or a `ModuleList` of child modules. -/
inductive Attr where
  | param (value grad : ℚ)
  | submod (attrs : List (String × Attr))
  | sublist (mods : List (List (String × Attr)))

/-- A module object: its ordered attribute bindings. -/
abbrev Mod := List (String × Attr)

mutual
/-- The `state_dict` entries contributed by one attribute binding
(`Module.state_dict`, lines 33-47): a `Parameter` emits `name.value` and
`name.grad`; a submodule recurses with prefix `name.`; a `ModuleList`
recurses with prefix `name.i.`. -/
def attrStateDict (name : String) : Attr → List (List String × ℚ)
  | .param v g => [([name, "value"], v), ([name, "grad"], g)]
  | .submod m => (modStateDict m).map (fun kv => (name :: kv.1, kv.2))
  | .sublist ms => (listStateDict 0 ms).map (fun kv => (name :: kv.1, kv.2))

/-- `state_dict` entries of the modules of a `ModuleList` starting at index
`i`, each prefixed with its decimal index. -/
def listStateDict (i : ℕ) : List Mod → List (List String × ℚ)
  | [] => []
  | m :: rest =>
      (modStateDict m).map (fun kv => (toString i :: kv.1, kv.2)) ++
        listStateDict (i + 1) rest

/-- `Module.state_dict`: concatenation of every binding's entries. -/
def modStateDict : Mod → List (List String × ℚ)
  | [] => []
  | (nm, a) :: rest => attrStateDict nm a ++ modStateDict rest
end

/-- `setattr` on an existing attribute binding: replace it, keeping order. -/
def setAttr (m : Mod) (name : String) (a : Attr) : Mod :=
  m.map (fun na => if na.1 = name then (na.1, a) else na)

/-- `Module.load_state_dict` (lines 49-61) processing one split key:
* one component: neither `len(res) == 2` nor `len(res) > 2` applies — the key
  is silently ignored;
* two components: `getattr` (`AttributeError` when absent) then
  `setattr(param, res[1], value)`; writing a field other than
  `value`/`grad`, or writing onto a non-`Parameter` attribute, creates an
  attribute the serialization never reads — observable state unchanged;
* three or more: recurse into a submodule, or index a `ModuleList` with
  `int(res[1])` (`ValueError` on a non-numeral, `IndexError` out of range);
  a `Parameter` hit by a deep key matches neither `isinstance` branch and is
  silently ignored. -/
def moduleLoadKey : List String → Mod → ℚ → Except PyError Mod
  | [], m, _ => .ok m
  | [_], m, _ => .ok m
  | [a, b], m, v =>
      match m.lookup a with
      | none => .error .attributeError
      | some (.param val g) =>
          if b = "value" then .ok (setAttr m a (.param v g))
          else if b = "grad" then .ok (setAttr m a (.param val v))
          else .ok m
      | some _ => .ok m
  | a :: b :: c :: rest, m, v =>
      match m.lookup a with
      | none => .error .attributeError
      | some (.param _ _) => .ok m
      | some (.submod sm) =>
          match moduleLoadKey (b :: c :: rest) sm v with
          | .ok sm' => .ok (setAttr m a (.submod sm'))
          | .error e => .error e
      | some (.sublist ms) =>
          match pyInt? b with
          | none => .error .valueError
          | some i =>
              if h : i < ms.length then
                match moduleLoadKey (c :: rest) (ms.get ⟨i, h⟩) v with
                | .ok m' => .ok (setAttr m a (.sublist (ms.set i m')))
                | .error e => .error e
              else .error .indexError

/-- `Module.load_state_dict` over a whole mapping: keys processed in order,
an exception aborting the remainder. -/
def moduleLoadStateDict (m : Mod) : List (List String × ℚ) → Except PyError Mod
  | [] => .ok m
  | (k, v) :: rest =>
      match moduleLoadKey k m v with
      | .ok m' => moduleLoadStateDict m' rest
      | .error e => .error e

/-- `Sequential.state_dict` (lines 218-224): every child layer's entries
under the key prefix `layers.{idx}.`. -/
def sequentialStateDict (layers : List Mod) : List (List String × ℚ) :=
  (listStateDict 0 layers).map (fun kv => ("layers" :: kv.1, kv.2))

/-- `Sequential.load_state_dict` (lines 226-230) on one split key:
`submodule = self.layers[int(parts[0])]` — `int` on the first component
(`ValueError` on a non-numeral such as `"layers"`), then the child's
`load_state_dict` on the re-joined remainder. -/
def sequentialLoadKey (layers : List Mod) (k : List String) (v : ℚ) :
    Except PyError (List Mod) :=
  match k with
  | [] => .ok layers
  | p0 :: rest =>
      match pyInt? p0 with
      | none => .error .valueError
      | some i =>
          if h : i < layers.length then
            match moduleLoadKey rest (layers.get ⟨i, h⟩) v with
            | .ok m' => .ok (layers.set i m')
            | .error e => .error e
          else .error .indexError

/-- `Sequential.load_state_dict` over a whole mapping. -/
def sequentialLoadStateDict (layers : List Mod) :
    List (List String × ℚ) → Except PyError (List Mod)
  | [] => .ok layers
  | (k, v) :: rest =>
      match sequentialLoadKey layers k v with
      | .ok layers' => sequentialLoadStateDict layers' rest
      | .error e => .error e

/-- The serialized state of a `BatchNorm2d` layer (lines 575-656): the two
learnable parameters and the running statistics (scalars standing for
per-channel tensors). -/
structure BN2dState where
  gammaValue : ℚ
  gammaGrad : ℚ
  betaValue : ℚ
  betaGrad : ℚ
  runningMean : ℚ
  runningVar : ℚ
deriving DecidableEq, Repr

/-- `BatchNorm2d.load_state_dict` (lines 638-656): an `if`/`elif` chain
comparing each full key string against the four recognized keys, with no
`else`: any other key does nothing. -/
def bn2dLoadStateDict (s : BN2dState) (sd : List (String × ℚ)) : BN2dState :=
  sd.foldl (fun s kv =>
    if kv.1 = "gamma.value" then
      ⟨kv.2, s.gammaGrad, s.betaValue, s.betaGrad, s.runningMean, s.runningVar⟩
    else if kv.1 = "beta.value" then
      ⟨s.gammaValue, s.gammaGrad, kv.2, s.betaGrad, s.runningMean, s.runningVar⟩
    else if kv.1 = "running_mean.value" then
      ⟨s.gammaValue, s.gammaGrad, s.betaValue, s.betaGrad, kv.2, s.runningVar⟩
    else if kv.1 = "running_var.value" then
      ⟨s.gammaValue, s.gammaGrad, s.betaValue, s.betaGrad, s.runningMean, kv.2⟩
    else s) s

/-! ## `Sequential.forward` train-flag dispatch (lines 205-211)

```
if isinstance(layer, DropoutLayer) or isinstance(layer, BatchNormLayer):
    inp = layer(inp, train=self.if_train)
else:
    inp = layer(inp)
```
`BatchNorm2d` is a direct subclass of `Module`, not of `BatchNormLayer`, so
the `isinstance` test does not match it.  The forward signatures of
`DropoutLayer`, `BatchNormLayer` and `BatchNorm2d` all default the flag with
`train=True` when it is not passed. -/

/-- The concrete layer classes a `Sequential` may hold. -/
inductive LayerKind where
  | linear
  | softmax
  | relu
  | sigmoid
  | leakyRelu
  | dropout
  | batchNormLayer
  | batchNorm2d
  | conv2d
  | flatten
deriving DecidableEq, Repr, BEq

/-- The `isinstance` test of `Sequential.forward`: `DropoutLayer` or
`BatchNormLayer` (and nothing else). -/
def seqPassesTrainFlag (l : LayerKind) : Bool :=
  l == .dropout || l == .batchNormLayer

/-- The `train=` argument `Sequential.forward` passes to a layer's forward:
the container's `if_train` for layers matching the `isinstance` test, nothing
for all others. -/
def seqTrainArg (ifTrain : Bool) (l : LayerKind) : Option Bool :=
  if seqPassesTrainFlag l then some ifTrain else none

/-- Which layer classes declare a `train` parameter on `forward` (dropout and
both normalization layers). -/
def takesTrainFlag (l : LayerKind) : Bool :=
  l == .dropout || l == .batchNormLayer || l == .batchNorm2d

/-- The train flag a mode-dependent layer's forward actually runs with: the
passed argument, or its declared default `train=True`. -/
def effectiveTrain (arg : Option Bool) : Bool :=
  arg.getD true


/-! ## Lemmas and claim theorems -/

/-- Shifting every logit of a sample by a common constant does not change the
normalized exponentials (exact arithmetic). -/
lemma softmax_shift_invariant (hF : 0 < F) (inp : Fin B → Fin F → ℝ) (b : Fin B)
    (f : Fin F) (M : ℝ) :
    Real.exp (inp b f - M) / ∑ f' : Fin F, Real.exp (inp b f' - M) =
      Real.exp (inp b f) / ∑ f' : Fin F, Real.exp (inp b f') := by
  have hS : (0 : ℝ) < ∑ f' : Fin F, Real.exp (inp b f') := by
    apply Finset.sum_pos (fun i _ => Real.exp_pos _)
    exact ⟨⟨0, hF⟩, Finset.mem_univ _⟩
  have hE : Real.exp M ≠ 0 := (Real.exp_pos M).ne'
  have hsum : (∑ f' : Fin F, Real.exp (inp b f' - M)) =
      (∑ f' : Fin F, Real.exp (inp b f')) / Real.exp M := by
    rw [Finset.sum_div]
    exact Finset.sum_congr rfl fun i _ => Real.exp_sub _ _
  rw [hsum, Real.exp_sub, div_div_div_cancel_right₀]
  exact hE

/-- With any non-negative leak (such as the default `0.01`), the first masked
assignment writes `leak ≥ 0` into the negative positions, so the second
assignment overwrites the whole buffer with `1`: the returned gradient is the
incoming gradient unchanged. -/
lemma leakyReluBackward_of_nonneg_leak (leak : ℚ) (hleak : 0 ≤ leak)
    (prevInp grad : Fin B → ℚ) (i : Fin B) :
    leakyReluBackward leak prevInp grad i = grad i := by
  unfold leakyReluBackward
  by_cases h : prevInp i < 0
  · simp [h, hleak]
  · simp [h, not_lt.mp h]

/-- Reading the padded tensor at an interior position recovers the original
pixel. -/
lemma xPadded_interior (p : ConvParams) (x : Image p) (n : Fin p.N) (c : Fin p.C)
    (y : Fin p.H) (w : Fin p.W) (hy : y.val + p.ph < p.H + 2 * p.ph)
    (hw : w.val + p.pw < p.W + 2 * p.pw) :
    xPadded p x n c ⟨y.val + p.ph, hy⟩ ⟨w.val + p.pw, hw⟩ = x n c y w := by
  have hc : p.ph ≤ y.val + p.ph ∧ y.val + p.ph < p.ph + p.H ∧
      p.pw ≤ w.val + p.pw ∧ w.val + p.pw < p.pw + p.W :=
    ⟨Nat.le_add_left _ _, by omega, Nat.le_add_left _ _, by omega⟩
  simp only [xPadded, Fin.val_mk]
  rw [dif_pos hc]
  congr 1 <;> (apply Fin.ext; simp)

/-- A column entry of `im2col_indices` whose indices point at an interior
position equals the corresponding input pixel. -/
lemma im2col_entry_interior (p : ConvParams) (x : Image p) (r q : ℕ) (n : Fin p.N)
    (c : Fin p.C) (y : Fin p.H) (w : Fin p.W) (hk : kIdx p r = c.val)
    (hi : iIdx p r q = y.val + p.ph) (hj : jIdx p r q = w.val + p.pw) :
    im2col_indices p x r (q * p.N + n.val) = x n c y w := by
  have hn : n.val < p.N := n.isLt
  have h1 : (q * p.N + n.val) % p.N = n.val := by
    rw [mul_comm, Nat.mul_add_mod, Nat.mod_eq_of_lt hn]
  have h2 : (q * p.N + n.val) / p.N = q := by
    rw [mul_comm, Nat.mul_add_div (by omega), Nat.div_eq_of_lt hn]
    omega
  unfold im2col_indices
  simp only [h1, h2]
  have hkc : kIdx p r < p.C := by rw [hk]; exact c.isLt
  have hic : iIdx p r q < p.H + 2 * p.ph := by rw [hi]; omega
  have hjc : jIdx p r q < p.W + 2 * p.pw := by rw [hj]; omega
  rw [dif_pos ⟨hn, hkc, hic, hjc⟩]
  simp only [hk, hi, hj, Fin.eta]
  exact xPadded_interior p x n c y w _ _

/-- The pairs `(r, q)` scattering onto a fixed padded position `(c, Y, X)` are
in bijection with the pairs of covering window positions: their number is
`coverH Y * coverW X`. -/
lemma scatter_card (p : ConvParams) (hfh : 0 < p.fh) (hfw : 0 < p.fw)
    (c : Fin p.C) (Y X : ℕ) :
    ((Finset.range (p.C * p.fh * p.fw) ×ˢ
        Finset.range (outHeight p * outWidth p)).filter
      (fun z => kIdx p z.1 = c.val ∧ iIdx p z.1 z.2 = Y ∧ jIdx p z.1 z.2 = X)).card
    = coverH p Y * coverW p X := by
  have hOW : 0 < outWidth p := Nat.succ_pos _
  have hM : 0 < p.fh * p.fw := Nat.mul_pos hfh hfw
  rw [coverH, coverW, ← Finset.card_product]
  apply Finset.card_bij'
    (fun z _ => ((z.2 / outWidth p : ℕ), (z.2 % outWidth p : ℕ)))
    (fun z _ => ((c.val * (p.fh * p.fw) + ((Y - p.sh * z.1) * p.fw + (X - p.sw * z.2)) : ℕ),
      (z.1 * outWidth p + z.2 : ℕ)))
  · -- the decoded window pair covers (Y, X)
    intro z hz
    simp only [Finset.mem_filter, Finset.mem_product, Finset.mem_range] at hz
    obtain ⟨⟨hr, hq⟩, hk, hi, hj⟩ := hz
    unfold iIdx at hi
    unfold jIdx at hj
    have hfr : z.1 % (p.fh * p.fw) / p.fw < p.fh :=
      (Nat.div_lt_iff_lt_mul hfw).mpr (Nat.mod_lt _ hM)
    have hfc : z.1 % p.fw < p.fw := Nat.mod_lt _ hfw
    have hoy : z.2 / outWidth p < outHeight p := (Nat.div_lt_iff_lt_mul hOW).mpr hq
    have hox : z.2 % outWidth p < outWidth p := Nat.mod_lt _ hOW
    simp only [Finset.mem_product, Finset.mem_filter, Finset.mem_range]
    generalize hFR : z.1 % (p.fh * p.fw) / p.fw = FR at hfr hi
    generalize hFC : z.1 % p.fw = FC at hfc hj
    generalize hOY : z.2 / outWidth p = OY at hoy hi ⊢
    generalize hOX : z.2 % outWidth p = OX at hox hj ⊢
    exact ⟨⟨hoy, by omega, by omega⟩, hox, by omega, by omega⟩
  · -- the encoded (r, q) pair lies in the scatter set
    intro z hz
    simp only [Finset.mem_product, Finset.mem_filter, Finset.mem_range] at hz
    obtain ⟨⟨hoy, hc1, hc2⟩, hox, hc3, hc4⟩ := hz
    have hfr : Y - p.sh * z.1 < p.fh := by omega
    have hfc : X - p.sw * z.2 < p.fw := by omega
    have hsum : (Y - p.sh * z.1) * p.fw + (X - p.sw * z.2) < p.fh * p.fw := by
      calc (Y - p.sh * z.1) * p.fw + (X - p.sw * z.2)
          < (Y - p.sh * z.1) * p.fw + p.fw := by omega
        _ = (Y - p.sh * z.1 + 1) * p.fw := by ring
        _ ≤ p.fh * p.fw := Nat.mul_le_mul_right _ (by omega)
    have hkeq : kIdx p (c.val * (p.fh * p.fw) +
        ((Y - p.sh * z.1) * p.fw + (X - p.sw * z.2))) = c.val := by
      unfold kIdx
      rw [mul_comm c.val, Nat.mul_add_div hM, Nat.div_eq_of_lt hsum]
      omega
    have hrmod : (c.val * (p.fh * p.fw) +
        ((Y - p.sh * z.1) * p.fw + (X - p.sw * z.2))) % (p.fh * p.fw)
        = (Y - p.sh * z.1) * p.fw + (X - p.sw * z.2) := by
      rw [mul_comm c.val, Nat.mul_add_mod, Nat.mod_eq_of_lt hsum]
    have hq1 : (z.1 * outWidth p + z.2) / outWidth p = z.1 := by
      rw [mul_comm, Nat.mul_add_div hOW, Nat.div_eq_of_lt hox]
      omega
    have hq2 : (z.1 * outWidth p + z.2) % outWidth p = z.2 := by
      rw [mul_comm, Nat.mul_add_mod, Nat.mod_eq_of_lt hox]
    simp only [Finset.mem_filter, Finset.mem_product, Finset.mem_range]
    refine ⟨⟨?_, ?_⟩, hkeq, ?_, ?_⟩
    · -- r bound
      have h1 : (c.val + 1) * (p.fh * p.fw) ≤ p.C * (p.fh * p.fw) :=
        Nat.mul_le_mul_right _ c.isLt
      have h2 : (c.val + 1) * (p.fh * p.fw) = c.val * (p.fh * p.fw) + p.fh * p.fw :=
        Nat.succ_mul _ _
      have h3 : p.C * (p.fh * p.fw) = p.C * p.fh * p.fw := (mul_assoc _ _ _).symm
      omega
    · -- q bound
      have h1 : (z.1 + 1) * outWidth p ≤ outHeight p * outWidth p :=
        Nat.mul_le_mul_right _ hoy
      have h2 : (z.1 + 1) * outWidth p = z.1 * outWidth p + outWidth p :=
        Nat.succ_mul _ _
      omega
    · -- iIdx hits Y
      unfold iIdx
      rw [hrmod, hq1, mul_comm (Y - p.sh * z.1), Nat.mul_add_div hfw,
        Nat.div_eq_of_lt hfc]
      omega
    · -- jIdx hits X
      unfold jIdx
      have he : c.val * (p.fh * p.fw) + ((Y - p.sh * z.1) * p.fw + (X - p.sw * z.2))
          = p.fw * (c.val * p.fh + (Y - p.sh * z.1)) + (X - p.sw * z.2) := by ring
      rw [he, Nat.mul_add_mod, Nat.mod_eq_of_lt hfc, hq2]
      omega
  · -- decoding then re-encoding gives back the original pair
    intro z hz
    simp only [Finset.mem_filter, Finset.mem_product, Finset.mem_range] at hz
    obtain ⟨⟨hr, hq⟩, hk, hi, hj⟩ := hz
    unfold kIdx at hk
    unfold iIdx at hi
    unfold jIdx at hj
    have e1 : p.fh * p.fw * (z.1 / (p.fh * p.fw)) + z.1 % (p.fh * p.fw) = z.1 :=
      Nat.div_add_mod _ _
    have e2 : p.fw * (z.1 % (p.fh * p.fw) / p.fw) + z.1 % (p.fh * p.fw) % p.fw
        = z.1 % (p.fh * p.fw) := Nat.div_add_mod _ _
    have e3 : z.1 % (p.fh * p.fw) % p.fw = z.1 % p.fw :=
      Nat.mod_mod_of_dvd _ (dvd_mul_left _ _)
    have efr : Y - p.sh * (z.2 / outWidth p) = z.1 % (p.fh * p.fw) / p.fw := by
      generalize hFR : z.1 % (p.fh * p.fw) / p.fw = FR at hi ⊢
      generalize hOY : z.2 / outWidth p = OY at hi ⊢
      omega
    have efc : X - p.sw * (z.2 % outWidth p) = z.1 % p.fw := by
      generalize hFC : z.1 % p.fw = FC at hj ⊢
      generalize hOX : z.2 % outWidth p = OX at hj ⊢
      omega
    have eq2 : z.2 / outWidth p * outWidth p + z.2 % outWidth p = z.2 := by
      rw [mul_comm]
      exact Nat.div_add_mod _ _
    refine Prod.ext ?_ eq2
    show c.val * (p.fh * p.fw) +
        ((Y - p.sh * (z.2 / outWidth p)) * p.fw + (X - p.sw * (z.2 % outWidth p))) = z.1
    rw [efr, efc, ← hk]
    calc z.1 / (p.fh * p.fw) * (p.fh * p.fw) +
        (z.1 % (p.fh * p.fw) / p.fw * p.fw + z.1 % p.fw)
        = p.fh * p.fw * (z.1 / (p.fh * p.fw)) +
          (p.fw * (z.1 % (p.fh * p.fw) / p.fw) + z.1 % (p.fh * p.fw) % p.fw) := by
          rw [mul_comm (z.1 / (p.fh * p.fw)), mul_comm (z.1 % (p.fh * p.fw) / p.fw), e3]
      _ = p.fh * p.fw * (z.1 / (p.fh * p.fw)) + z.1 % (p.fh * p.fw) := by rw [e2]
      _ = z.1 := e1
  · -- re-encoding then decoding gives back the window pair
    intro z hz
    simp only [Finset.mem_filter, Finset.mem_product, Finset.mem_range] at hz
    obtain ⟨⟨hoy, hc1, hc2⟩, hox, hc3, hc4⟩ := hz
    have hq1 : (z.1 * outWidth p + z.2) / outWidth p = z.1 := by
      rw [mul_comm, Nat.mul_add_div hOW, Nat.div_eq_of_lt hox]
      omega
    have hq2 : (z.1 * outWidth p + z.2) % outWidth p = z.2 := by
      rw [mul_comm, Nat.mul_add_mod, Nat.mod_eq_of_lt hox]
    exact Prod.ext hq1 hq2

/-- Scatter-add of the gathered columns: every original pixel of
`col2im(im2col(x))` receives one copy of its value per covering window. -/
theorem col2im_im2col_cover (p : ConvParams)
    (hfh : 0 < p.fh) (hfw : 0 < p.fw)
    (x : Image p) (n : Fin p.N) (c : Fin p.C) (y : Fin p.H) (w : Fin p.W) :
    col2im_indices p (im2col_indices p x) n c y w =
      ((coverH p (y.val + p.ph) : ℚ) * (coverW p (w.val + p.pw) : ℚ)) * x n c y w := by
  unfold col2im_indices col2imPadded
  rw [← Finset.sum_product']
  simp only [Fin.val_mk]
  have hrw : ∀ z ∈ Finset.range (p.C * p.fh * p.fw) ×ˢ
      Finset.range (outHeight p * outWidth p),
      (if kIdx p z.1 = c.val ∧ iIdx p z.1 z.2 = y.val + p.ph ∧
          jIdx p z.1 z.2 = w.val + p.pw then
        im2col_indices p x z.1 (z.2 * p.N + n.val) else 0)
      = (if kIdx p z.1 = c.val ∧ iIdx p z.1 z.2 = y.val + p.ph ∧
          jIdx p z.1 z.2 = w.val + p.pw then x n c y w else 0) := by
    intro z hz
    by_cases hcond : kIdx p z.1 = c.val ∧ iIdx p z.1 z.2 = y.val + p.ph ∧
        jIdx p z.1 z.2 = w.val + p.pw
    · rw [if_pos hcond, if_pos hcond,
        im2col_entry_interior p x z.1 z.2 n c y w hcond.1 hcond.2.1 hcond.2.2]
    · rw [if_neg hcond, if_neg hcond]
  rw [Finset.sum_congr rfl hrw, ← Finset.sum_filter, Finset.sum_const,
    scatter_card p hfh hfw c (y.val + p.ph) (w.val + p.pw), nsmul_eq_mul]
  push_cast
  ring

/-- One-dimensional tiling: when the stride equals the field size, the padding
is zero and the field size divides the extent, every position is covered by
exactly one window. -/
lemma cover_card_tile (f L outN y : ℕ) (hf : 0 < f) (hdvd : f ∣ L) (hy : y < L)
    (hout : outN = (L - f) / f + 1) :
    ((Finset.range outN).filter (fun o => f * o ≤ y ∧ y < f * o + f)).card = 1 := by
  obtain ⟨m, rfl⟩ := hdvd
  have houtm : outN = m := by
    obtain ⟨m', rfl⟩ : ∃ m', m = m' + 1 := by
      refine ⟨m - 1, ?_⟩
      rcases Nat.eq_zero_or_pos m with h | h
      · subst h
        simp only [Nat.mul_zero] at hy
        omega
      · omega
    have h1 : f * (m' + 1) - f = f * m' := by rw [Nat.mul_succ]; omega
    rw [hout, h1, Nat.mul_div_cancel_left _ hf]
  subst houtm
  have key : (Finset.range outN).filter (fun o => f * o ≤ y ∧ y < f * o + f)
      = {y / f} := by
    ext o
    simp only [Finset.mem_filter, Finset.mem_range, Finset.mem_singleton]
    constructor
    · rintro ⟨ho, h1, h2⟩
      refine (Nat.div_eq_of_lt_le ?_ ?_).symm
      · rw [mul_comm]; exact h1
      · rw [Nat.succ_mul, mul_comm]; omega
    · rintro rfl
      have hdm : f * (y / f) + y % f = y := Nat.div_add_mod y f
      have hmod : y % f < f := Nat.mod_lt _ hf
      refine ⟨(Nat.div_lt_iff_lt_mul hf).mpr ?_, by omega, by omega⟩
      rw [mul_comm]
      exact hy
  rw [key, Finset.card_singleton]

/-- Claim C5, amended.  For every 4-D input and nonempty field (with the
padding pair either both zero or both positive, matching the modelled trim),
every element of `col2im_indices(im2col_indices(x))` equals the number of
windows covering that element's padded position times the element's value —
i.e. the sum of one contribution per covering window; and in the exact-tiling
case (stride = field size, zero padding, field dividing the extent, so that
every pixel is covered exactly once) the round trip is the identity.
`stride ≥ field size` alone does **not** give the identity: strictly larger
strides leave pixels covered by no window, which come back zeroed. -/
theorem col2im_im2col_claim (p : ConvParams) (hfh : 0 < p.fh) (hfw : 0 < p.fw)
    (hpad : (p.ph = 0 ∧ p.pw = 0) ∨ (0 < p.ph ∧ 0 < p.pw))
    (x : Image p) (n : Fin p.N) (c : Fin p.C) (y : Fin p.H) (w : Fin p.W) :
    col2im_indices p (im2col_indices p x) n c y w =
      ((coverH p (y.val + p.ph) : ℚ) * (coverW p (w.val + p.pw) : ℚ)) * x n c y w
    ∧ (p.sh = p.fh → p.sw = p.fw → p.ph = 0 → p.pw = 0 → p.fh ∣ p.H → p.fw ∣ p.W →
        col2im_indices p (im2col_indices p x) n c y w = x n c y w) := by
  refine ⟨col2im_im2col_cover p hfh hfw x n c y w, fun e1 e2 e3 e4 d1 d2 => ?_⟩
  rw [col2im_im2col_cover p hfh hfw x n c y w]
  have hOH : outHeight p = (p.H - p.fh) / p.fh + 1 := by
    unfold outHeight
    rw [e1, e3]
    norm_num
  have hOW : outWidth p = (p.W - p.fw) / p.fw + 1 := by
    unfold outWidth
    rw [e2, e4]
    norm_num
  have h1 : coverH p (y.val + p.ph) = 1 := by
    unfold coverH
    simp only [e1, e3, Nat.add_zero]
    exact cover_card_tile p.fh p.H (outHeight p) y.val hfh d1 y.isLt hOH
  have h2 : coverW p (w.val + p.pw) = 1 := by
    unfold coverW
    simp only [e2, e4, Nat.add_zero]
    exact cover_card_tile p.fw p.W (outWidth p) w.val hfw d2 w.isLt hOW
  rw [h1, h2]
  norm_num

/-- Claim C5 as stated is false: with field `1 × 1`, stride `(2, 1)` (so
stride ≥ field in both components, output sizes exactly defined), zero
padding, and input column `(1, 2, 3)`, the middle pixel is covered by no
window and comes back as `0 ≠ 2`. -/
theorem col2im_im2col_counterexample :
    ¬ (col2im_indices ⟨1, 1, 3, 1, 1, 1, 0, 0, 2, 1⟩
        (im2col_indices ⟨1, 1, 3, 1, 1, 1, 0, 0, 2, 1⟩
          (fun _ _ y _ => (y.val : ℚ) + 1)) ⟨0, by decide⟩ ⟨0, by decide⟩ ⟨1, by decide⟩
          ⟨0, by decide⟩
      = (fun (_ : Fin 1) (_ : Fin 1) (y : Fin 3) (_ : Fin 1) => (y.val : ℚ) + 1)
          ⟨0, by decide⟩ ⟨0, by decide⟩ ⟨1, by decide⟩ ⟨0, by decide⟩) := by
  intro hcontra
  norm_num [col2im_indices, col2imPadded, im2col_indices, xPadded, kIdx, iIdx, jIdx,
    outHeight, outWidth, Finset.sum_range_succ, Finset.sum_range_zero] at hcontra

/-- Witness instantiating `col2im_im2col_claim` at a concrete tiled
configuration. -/
theorem col2im_im2col_claim_witness :
    (col2im_indices ⟨1, 1, 2, 2, 1, 1, 0, 0, 1, 1⟩
        (im2col_indices ⟨1, 1, 2, 2, 1, 1, 0, 0, 1, 1⟩
          (fun _ _ y w => (y.val : ℚ) * 2 + (w.val : ℚ))) ⟨0, by decide⟩ ⟨0, by decide⟩
          ⟨1, by decide⟩ ⟨0, by decide⟩ =
      ((coverH ⟨1, 1, 2, 2, 1, 1, 0, 0, 1, 1⟩ ((1 : ℕ) + 0) : ℚ) *
          (coverW ⟨1, 1, 2, 2, 1, 1, 0, 0, 1, 1⟩ ((0 : ℕ) + 0) : ℚ)) *
        (fun (_ : Fin 1) (_ : Fin 1) (y : Fin 2) (w : Fin 2) =>
          (y.val : ℚ) * 2 + (w.val : ℚ)) ⟨0, by decide⟩ ⟨0, by decide⟩ ⟨1, by decide⟩
          ⟨0, by decide⟩)
    ∧ ((1 : ℕ) = 1 → (1 : ℕ) = 1 → (0 : ℕ) = 0 → (0 : ℕ) = 0 → (1 : ℕ) ∣ 2 →
        (1 : ℕ) ∣ 2 →
        col2im_indices ⟨1, 1, 2, 2, 1, 1, 0, 0, 1, 1⟩
          (im2col_indices ⟨1, 1, 2, 2, 1, 1, 0, 0, 1, 1⟩
            (fun _ _ y w => (y.val : ℚ) * 2 + (w.val : ℚ))) ⟨0, by decide⟩ ⟨0, by decide⟩
            ⟨1, by decide⟩ ⟨0, by decide⟩ =
        (fun (_ : Fin 1) (_ : Fin 1) (y : Fin 2) (w : Fin 2) =>
          (y.val : ℚ) * 2 + (w.val : ℚ)) ⟨0, by decide⟩ ⟨0, by decide⟩ ⟨1, by decide⟩
          ⟨0, by decide⟩) :=
  col2im_im2col_claim ⟨1, 1, 2, 2, 1, 1, 0, 0, 1, 1⟩ (by decide) (by decide)
    (Or.inl ⟨rfl, rfl⟩) (fun _ _ y w => (y.val : ℚ) * 2 + (w.val : ℚ))
    ⟨0, by decide⟩ ⟨0, by decide⟩ ⟨1, by decide⟩ ⟨0, by decide⟩


/-- Claim C1.  `SoftmaxLayer.forward` equals the max-shifted normalized
exponentials `exp(inp - per-sample-max) / sum(exp(inp - per-sample-max))`
along the feature axis.  (The source computes `exp(inp)/sum(exp(inp))`
without the explicit shift; in the exact arithmetic of this embedding the two
expressions coincide.) -/
theorem softmaxForward_max_shift {B F : ℕ} (hF : 0 < F) (inp : Fin B → Fin F → ℝ)
    (b : Fin B) (f : Fin F) :
    softmaxForward inp b f =
      Real.exp (inp b f - sampleMax hF inp b) /
        ∑ f' : Fin F, Real.exp (inp b f' - sampleMax hF inp b) :=
  (softmax_shift_invariant hF inp b f _).symm

/-- Witness instantiating `softmaxForward_max_shift` at a concrete input. -/
theorem softmaxForward_max_shift_witness :
    softmaxForward (fun (_ : Fin 1) (_ : Fin 2) => (0 : ℝ)) 0 0 =
      Real.exp ((fun (_ : Fin 1) (_ : Fin 2) => (0 : ℝ)) 0 0 -
          sampleMax (by norm_num) (fun (_ : Fin 1) (_ : Fin 2) => (0 : ℝ)) 0) /
        ∑ f' : Fin 2, Real.exp ((fun (_ : Fin 1) (_ : Fin 2) => (0 : ℝ)) 0 f' -
          sampleMax (by norm_num) (fun (_ : Fin 1) (_ : Fin 2) => (0 : ℝ)) 0) :=
  softmaxForward_max_shift (by norm_num) (fun _ _ => (0 : ℝ)) 0 0

/-- Claim C2 as stated is false: `BatchNormLayer.backward` assigns
`self.gamma.grad = ...` instead of accumulating.  With the accumulator
previously holding `1` and an all-zero incoming gradient, the accumulator
afterwards holds `0`, not `1 + 0`. -/
theorem gradAccumulation_counterexample :
    batchNormBackwardGammaGrad (fun _ : Fin 1 => (1 : ℚ))
        (fun (_ : Fin 1) (_ : Fin 1) => (0 : ℚ)) (fun (_ : Fin 1) (_ : Fin 1) => (0 : ℚ)) 0
      ≠ (fun _ : Fin 1 => (1 : ℚ)) 0 +
        ∑ b : Fin 1, (fun (_ : Fin 1) (_ : Fin 1) => (0 : ℚ)) b 0 *
          (fun (_ : Fin 1) (_ : Fin 1) => (0 : ℚ)) b 0 := by
  norm_num [batchNormBackwardGammaGrad]

/-- Claim C2, amended.  `Linear.backward` accumulates its parameter gradients
by addition (and two successive backward calls add both contributions), but
`BatchNormLayer.backward` and `BatchNorm2d.backward` overwrite `gamma.grad`
and `beta.grad` with freshly computed values, independent of the previous
accumulator contents. -/
theorem gradAccumulation_amended {B O I F C H W : ℕ}
    (weightGrad : Fin O → Fin I → ℚ) (prevInp : Fin B → Fin I → ℚ)
    (grad grad2 : Fin B → Fin O → ℚ) (biasGrad : Fin O → ℚ)
    (gammaGrad gammaGrad' : Fin F → ℚ) (bngrad bnout : Fin B → Fin F → ℚ)
    (gammaGrad2 gammaGrad2' : Fin C → ℚ)
    (g4 o4 : Fin B → Fin C → Fin H → Fin W → ℚ)
    (o : Fin O) (i : Fin I) (f : Fin F) (c : Fin C) :
    (linearBackwardWeightGrad weightGrad prevInp grad o i
        = weightGrad o i + ∑ b : Fin B, grad b o * prevInp b i)
    ∧ (linearBackwardBiasGrad biasGrad grad o = biasGrad o + ∑ b : Fin B, grad b o)
    ∧ (linearBackwardWeightGrad (linearBackwardWeightGrad weightGrad prevInp grad)
        prevInp grad2 o i
        = weightGrad o i + (∑ b : Fin B, grad b o * prevInp b i) +
          ∑ b : Fin B, grad2 b o * prevInp b i)
    ∧ (batchNormBackwardGammaGrad gammaGrad bngrad bnout f
        = batchNormBackwardGammaGrad gammaGrad' bngrad bnout f)
    ∧ (batchNormBackwardGammaGrad gammaGrad bngrad bnout f
        = ∑ b : Fin B, bngrad b f * bnout b f)
    ∧ (batchNormBackwardBetaGrad gammaGrad bngrad f = ∑ b : Fin B, bngrad b f)
    ∧ (batchNorm2dBackwardGammaGrad gammaGrad2 g4 o4 c
        = batchNorm2dBackwardGammaGrad gammaGrad2' g4 o4 c)
    ∧ (batchNorm2dBackwardBetaGrad gammaGrad2 g4 c
        = batchNorm2dBackwardBetaGrad gammaGrad2' g4 c) :=
  ⟨rfl, rfl, rfl, rfl, rfl, rfl, rfl, rfl⟩

/-- Claim C3: the in-place mask construction of `LeakyReLULayer.backward`
evaluated at the failing input.  With the default leak `0.01`, cached input
`-1` and incoming gradient `1` the code returns `1` — the full gradient —
whereas the claimed mask would give `0.01 * 1`. -/
theorem leakyReluBackward_failing :
    leakyReluBackward (1 / 100) (fun _ : Fin 1 => (-1 : ℚ)) (fun _ : Fin 1 => (1 : ℚ)) 0 = 1
    ∧ ((1 : ℚ) / 100) * 1 ≠ 1 := by
  constructor
  · norm_num [leakyReluBackward]
  · norm_num

/-- Claim C4 as stated is false: `DropoutLayer.forward` in train mode applies
no `1/(1-p)` rescaling.  With rate `1/2`, input `1` and keep-mask `1`, the
output is `1`, not `1 / (1 - 1/2) = 2`. -/
theorem dropoutForward_counterexample :
    dropoutForward (fun _ : Fin 1 => (1 : ℚ)) (fun _ : Fin 1 => (1 : ℚ)) true 0 = 1
    ∧ (1 : ℚ) / (1 - 1 / 2) = 2 ∧ (1 : ℚ) ≠ 2 := by
  refine ⟨by norm_num [dropoutForward], by norm_num, by norm_num⟩

/-- Claim C4, amended.  Train-mode forward returns `inp * mask` with no
inverted-dropout rescaling (kept entries contribute the input unscaled,
dropped entries contribute `0`); eval-mode forward returns the input
unchanged; backward multiplies the gradient by the cached mask in train mode
and passes it unchanged in eval mode. -/
theorem dropout_amended {n : ℕ} (mask inp grad : Fin n → ℚ) (i : Fin n) :
    dropoutForward mask inp true i = inp i * mask i
    ∧ dropoutForward mask inp false i = inp i
    ∧ dropoutBackward mask grad true i = grad i * mask i
    ∧ dropoutBackward mask grad false i = grad i
    ∧ (mask i = 1 → dropoutForward mask inp true i = inp i)
    ∧ (mask i = 0 → dropoutForward mask inp true i = 0) :=
  ⟨rfl, rfl, rfl, rfl, fun h => by simp [dropoutForward, h],
    fun h => by simp [dropoutForward, h]⟩

/-- Witness instantiating `dropout_amended` at a concrete kept unit. -/
theorem dropout_amended_witness :
    dropoutForward (fun _ : Fin 1 => (1 : ℚ)) (fun _ : Fin 1 => (3 : ℚ)) true 0
        = (fun _ : Fin 1 => (3 : ℚ)) 0 * (fun _ : Fin 1 => (1 : ℚ)) 0
    ∧ dropoutForward (fun _ : Fin 1 => (1 : ℚ)) (fun _ : Fin 1 => (3 : ℚ)) false 0
        = (fun _ : Fin 1 => (3 : ℚ)) 0
    ∧ dropoutBackward (fun _ : Fin 1 => (1 : ℚ)) (fun _ : Fin 1 => (5 : ℚ)) true 0
        = (fun _ : Fin 1 => (5 : ℚ)) 0 * (fun _ : Fin 1 => (1 : ℚ)) 0
    ∧ dropoutBackward (fun _ : Fin 1 => (1 : ℚ)) (fun _ : Fin 1 => (5 : ℚ)) false 0
        = (fun _ : Fin 1 => (5 : ℚ)) 0
    ∧ ((fun _ : Fin 1 => (1 : ℚ)) 0 = 1 →
        dropoutForward (fun _ : Fin 1 => (1 : ℚ)) (fun _ : Fin 1 => (3 : ℚ)) true 0
          = (fun _ : Fin 1 => (3 : ℚ)) 0)
    ∧ ((fun _ : Fin 1 => (1 : ℚ)) 0 = 0 →
        dropoutForward (fun _ : Fin 1 => (1 : ℚ)) (fun _ : Fin 1 => (3 : ℚ)) true 0 = 0) :=
  dropout_amended (fun _ => 1) (fun _ => 3) (fun _ => 5) 0

/-- Claim C6: `Sequential.state_dict` emits keys under the prefix
`layers.{idx}.`, but `Sequential.load_state_dict` parses the first key
component with `int(...)`; on the exported dictionary of a one-`Linear`
Sequential the call raises `ValueError` on the component `"layers"` instead
of restoring the state. -/
theorem sequential_roundtrip_failing :
    sequentialLoadStateDict [[("bias", .param 1 0), ("weight", .param 2 0)]]
        (sequentialStateDict [[("bias", .param 1 0), ("weight", .param 2 0)]])
      = .error .valueError := by
  rfl

/-- Claim C7 as stated is false: `BatchNorm2d.load_state_dict` silently
ignores a key outside its four recognized key strings — the call returns with
the state unchanged and no error is raised. -/
theorem bn2dLoad_silent_drop :
    bn2dLoadStateDict ⟨1, 2, 3, 4, 5, 6⟩ [("unknown.value", 99)] = ⟨1, 2, 3, 4, 5, 6⟩ := by
  rfl

/-- Claim C7, amended.  A two-or-more-component key whose first component is
not an attribute raises `AttributeError`, but: a single-component key is
silently ignored; a key of three or more components addressing a `Parameter`
attribute is silently ignored; and `BatchNorm2d.load_state_dict` silently
ignores every key other than its four recognized ones. -/
theorem loadStateDict_mismatch_amended (m : Mod) (a1 a2 b c : String)
    (rest : List String) (v val g q : ℚ) (key : String) (s : BN2dState) :
    (m.lookup a1 = none → moduleLoadKey [a1, b] m v = .error .attributeError)
    ∧ (m.lookup a1 = none →
        moduleLoadKey (a1 :: b :: c :: rest) m v = .error .attributeError)
    ∧ (moduleLoadKey [a2] m v = .ok m)
    ∧ (m.lookup a2 = some (.param val g) →
        moduleLoadKey (a2 :: b :: c :: rest) m v = .ok m)
    ∧ (key ≠ "gamma.value" → key ≠ "beta.value" → key ≠ "running_mean.value" →
        key ≠ "running_var.value" → bn2dLoadStateDict s [(key, q)] = s) := by
  refine ⟨fun h => ?_, fun h => ?_, rfl, fun h => ?_, fun h1 h2 h3 h4 => ?_⟩
  · simp [moduleLoadKey, h]
  · simp [moduleLoadKey, h]
  · simp [moduleLoadKey, h]
  · simp [bn2dLoadStateDict, h1, h2, h3, h4]

/-- Witness instantiating `loadStateDict_mismatch_amended` on a one-parameter
module and a concrete `BatchNorm2d` state. -/
theorem loadStateDict_mismatch_amended_witness :
    (List.lookup "foo" [("weight", Attr.param 1 2)] = none →
        moduleLoadKey ["foo", "value"] [("weight", Attr.param 1 2)] 3
          = .error .attributeError)
    ∧ (List.lookup "foo" [("weight", Attr.param 1 2)] = none →
        moduleLoadKey ["foo", "value", "x"] [("weight", Attr.param 1 2)] 3
          = .error .attributeError)
    ∧ (moduleLoadKey ["weight"] [("weight", Attr.param 1 2)] 3
        = .ok [("weight", Attr.param 1 2)])
    ∧ (List.lookup "weight" [("weight", Attr.param 1 2)] = some (Attr.param 1 2) →
        moduleLoadKey ["weight", "value", "x"] [("weight", Attr.param 1 2)] 3
          = .ok [("weight", Attr.param 1 2)])
    ∧ ("unknown.value" ≠ "gamma.value" → "unknown.value" ≠ "beta.value" →
        "unknown.value" ≠ "running_mean.value" → "unknown.value" ≠ "running_var.value" →
        bn2dLoadStateDict ⟨1, 2, 3, 4, 5, 6⟩ [("unknown.value", 4)] = ⟨1, 2, 3, 4, 5, 6⟩) :=
  loadStateDict_mismatch_amended [("weight", Attr.param 1 2)] "foo" "weight" "value" "x"
    [] 3 1 2 4 "unknown.value" ⟨1, 2, 3, 4, 5, 6⟩

/-- Claim C8 as stated is false: a `Sequential` in eval mode does not pass
its mode to `BatchNorm2d` — the `isinstance` test matches only `DropoutLayer`
and `BatchNormLayer`, so `BatchNorm2d.forward` runs with its default
`train=True` instead of the container's `False`. -/
theorem seqTrainArg_counterexample :
    seqTrainArg false .batchNorm2d = none
    ∧ seqTrainArg false .batchNorm2d ≠ some false
    ∧ effectiveTrain (seqTrainArg false .batchNorm2d) = true := by
  decide

/-- Claim C8, amended.  `Sequential.forward` passes `train=self.if_train` to
`DropoutLayer` and `BatchNormLayer` only; `BatchNorm2d` (although
mode-dependent) and every other layer are invoked without the flag, so
`BatchNorm2d.forward` always runs with its default `train=True` regardless of
the container's mode. -/
theorem seqTrainArg_amended (mode : Bool) :
    seqTrainArg mode .dropout = some mode
    ∧ seqTrainArg mode .batchNormLayer = some mode
    ∧ seqTrainArg mode .batchNorm2d = none
    ∧ effectiveTrain (seqTrainArg mode .batchNorm2d) = true
    ∧ takesTrainFlag .batchNorm2d = true
    ∧ seqTrainArg mode .linear = none
    ∧ seqTrainArg mode .softmax = none
    ∧ seqTrainArg mode .relu = none
    ∧ seqTrainArg mode .sigmoid = none
    ∧ seqTrainArg mode .leakyRelu = none
    ∧ seqTrainArg mode .conv2d = none
    ∧ seqTrainArg mode .flatten = none := by
  cases mode <;> decide

/-- Claim C9: `ConvTranspose2d.forward` binds `d_w, d_h` to
`weight.shape[2], weight.shape[3]`, i.e. swapped, so with kernel
`(kh, kw) = (2, 3)` on a `1 × 1` input (stride 1, no padding) the produced
output height is `3` while the claimed formula `(H-1)·s - 2·p + kh + op`
gives `2`. -/
theorem convT2dOut_failing :
    convT2dOutH 1 1 0 0 2 3 = 3
    ∧ convT2dOutW 1 1 0 0 2 3 = 2
    ∧ ((1 - 1) * 1 - 2 * 0 + 2 + 0 : ℤ) = 2
    ∧ ((1 - 1) * 1 - 2 * 0 + 3 + 0 : ℤ) = 3
    ∧ (3 : ℤ) ≠ 2 := by
  decide

/-- Claim C10.  `backward` on `Conv2d`, `ConvTranspose2d`, `MaxPool2d` and
`AdaptiveAvgPool2d` fails immediately with the distinct
`NotImplementedError` signal and never produces a gradient value. -/
theorem backward_notImplemented {B C H W : ℕ}
    (dout : Fin B → Fin C → Fin H → Fin W → ℚ) :
    conv2dBackward dout = .error .notImplementedError
    ∧ convTranspose2dBackward dout = .error .notImplementedError
    ∧ maxPool2dBackward dout = .error .notImplementedError
    ∧ adaptiveAvgPool2dBackward dout = .error .notImplementedError :=
  ⟨rfl, rfl, rfl, rfl⟩

end NumPyTorch
